import Mathlib

/-!
Verification of the NFT2 mint-tracking component of the backend.

The embedding below translates, from the TypeScript source:
  - `getNFT2Mints` and `addNFT2Mint` from the database module
    (in-memory `Map` keyed by the lowercased address, one list of
    mint records per address, persisted as a whole on every add);
  - the three Express routes from `src/backend/src/routes.ts`:
    `POST /api/nft2/track-mint`, `GET /api/nft2/mints/:address` and
    `GET /api/nft2/next-token/:address`;
  - the `validateAddress` middleware guarding the two GET routes.

Modelling conventions:
  - JavaScript numbers that hold token ids are modelled as `Rat`: the
    track-mint route's only numeric gate is `isNaN(Number(tokenId))`,
    so any finite JSON number — fractional values such as `0.5`
    included — is accepted and stored, and the only operations the
    routes apply to token ids (`Math.max`, `+ 1`, comparisons) are
    exact on such inputs, so rationals model them faithfully. The
    `parseInt` coercion of string bodies still yields integers,
    embedded into `Rat`.
  - `String.prototype.toLowerCase()` on the ASCII addresses handled
    here coincides with Lean's `Char.toLower` applied characterwise.
  - The JS `Map` is modelled as an association list with the same
    observable get / has / set / push behaviour; iterating all values
    (`saveNFT2Mints`) corresponds to flattening the association list.
  - `ethers.isAddress` is third-party library code; it is modelled on
    the fragment relevant here: a `0x`-prefixed 40-hex-digit string
    that is not mixed-case (mixed-case inputs are subject to EIP-55
    checksum verification, which is conservatively not modelled, so
    the model under-approximates the accepted set).
  - Wall-clock time (`new Date().toISOString()`) is passed in as an
    explicit `now` argument.
-/

namespace NFT2

/-- `String.prototype.toLowerCase()` as used on addresses: ASCII
characterwise lowering, i.e. `Char.toLower` mapped over the string. -/
def jsToLower (s : String) : String :=
  ⟨s.data.map Char.toLower⟩

/-- One persisted mint record (`NFT2Mint` in the database module):
`{ address: address.toLowerCase(), tokenId, txHash, timestamp }`. -/
structure NFT2Mint where
  address : String
  tokenId : Rat
  txHash : String
  timestamp : String
  deriving DecidableEq

/-- The `nft2Mints` map: lowercased address to list of that address's
mint records, in insertion order. -/
abbrev Ledger := List (String × List NFT2Mint)

/-- All records in the ledger, across every recipient (the flattening
that `saveNFT2Mints` writes to disk). -/
def allRecords (db : Ledger) : List NFT2Mint :=
  (db.map Prod.snd).flatten

/-- Source `getNFT2Mints(address)`: look up `address.toLowerCase()` in
the map, defaulting to the empty list (`nft2Mints.get(lower) || []`). -/
def getNFT2Mints (db : Ledger) (address : String) : List NFT2Mint :=
  (db.lookup (jsToLower address)).getD []

/-- The `Map` update performed by `addNFT2Mint`:
`if (!nft2Mints.has(key)) nft2Mints.set(key, []);
nft2Mints.get(key)!.push(mint)` — append the record to the entry of
`key`, creating that entry (at the end, as `Map.set` does for a new
key) if absent. A `Map` holds at most one entry per key, so the entry
mutated is the one `lookup` finds. -/
def pushRecord : Ledger → String → NFT2Mint → Ledger
  | [], key, m => [(key, [m])]
  | e :: es, key, m =>
    if e.1 = key then (e.1, e.2 ++ [m]) :: es else e :: pushRecord es key m

/-- Source `addNFT2Mint(address, tokenId, txHash)`: build the record
with the lowercased address and the current time, push it onto the
map entry of the lowercased address, and return the record (the file
save that follows writes derived state and is not modelled
separately). -/
def addNFT2Mint (db : Ledger) (address : String) (tokenId : Rat)
    (txHash : String) (now : String) : NFT2Mint × Ledger :=
  let mint : NFT2Mint :=
    { address := jsToLower address, tokenId := tokenId,
      txHash := txHash, timestamp := now }
  (mint, pushRecord db (jsToLower address) mint)

/-- Test of the regex `/^0x[a-fA-F0-9]{40}$/` used by the track-mint
route: a hexadecimal digit in either case. -/
def isHexDigitChar (c : Char) : Bool :=
  (decide ('0' ≤ c) && decide (c ≤ '9')) ||
  (decide ('a' ≤ c) && decide (c ≤ 'f')) ||
  (decide ('A' ≤ c) && decide (c ≤ 'F'))

/-- The route-level address check `/^0x[a-fA-F0-9]{40}$/.test(address)`. -/
def matchesAddressRegex (s : String) : Bool :=
  match s.data with
  | '0' :: 'x' :: rest => rest.length == 40 && rest.all isHexDigitChar
  | _ => false

/-- Model of `ethers.isAddress` (third-party) on the fragment relevant
to these routes: a `0x`-prefixed 40-hex-digit string whose hex part is
not mixed-case. Mixed-case addresses undergo EIP-55 checksum
verification in the library; that keccak-based check is conservatively
not modelled, so this predicate under-approximates the accepted set. -/
def ethersIsAddress (s : String) : Bool :=
  match s.data with
  | '0' :: 'x' :: rest =>
    rest.length == 40 && rest.all isHexDigitChar &&
      (rest.all (fun c => !c.isUpper) || rest.all (fun c => !c.isLower))
  | _ => false

/-- A `tokenId` field of the JSON request body: the route accepts both
a JSON number and a string (`typeof tokenId === 'string'`). A JSON
number need not be an integer — `isNaN` is the route's only gate — so
the numeric case carries a rational. -/
inductive TokenIdField where
  | num (n : Rat)
  | str (s : String)
  deriving DecidableEq

/-- The JSON body of `POST /api/nft2/track-mint`; `none` models an
absent (`undefined`) field. -/
structure TrackMintBody where
  address : Option String
  tokenId : Option TokenIdField
  txHash : Option String
  deriving DecidableEq

/-- Accumulate the decimal value of the longest digit prefix;
`none` when no digit has been consumed (`parseInt` yields `NaN`). -/
def parseDecDigits : List Char → Option Nat → Option Nat
  | [], acc => acc
  | c :: cs, acc =>
    if c.isDigit then
      parseDecDigits cs (some ((acc.getD 0) * 10 + (c.toNat - 48)))
    else acc

/-- Model of JavaScript `parseInt(s, 10)`: skip leading whitespace,
read an optional sign, then the longest decimal-digit prefix; `none`
models `NaN`. -/
def jsParseInt (s : String) : Option Int :=
  let t := s.data.dropWhile Char.isWhitespace
  match t with
  | '-' :: rest => (parseDecDigits rest none).map fun n => -(n : Int)
  | '+' :: rest => (parseDecDigits rest none).map fun n => (n : Int)
  | _ => (parseDecDigits t none).map fun n => (n : Int)

/-- Body of the 200 response of `GET /api/nft2/mints/:address`. -/
structure MintsResponse where
  address : String
  mintsCount : Nat
  nextTokenId : Rat
  mints : List NFT2Mint
  deriving DecidableEq

/-- Body of the 200 response of `GET /api/nft2/next-token/:address`
(the fields it actually carries: no `source`, no chain data). -/
structure NextTokenResponse where
  address : String
  nextTokenId : Rat
  totalMinted : Nat
  maxSupply : Nat
  deriving DecidableEq

/-- The responses the three routes can produce. `badRequest` is an
HTTP 400 from a route's own validation, `invalidAddress` an HTTP 400
from the `validateAddress` middleware, the rest are HTTP 200. -/
inductive ApiResponse where
  | trackOk (mint : NFT2Mint)
  | badRequest (error : String)
  | invalidAddress
  | mintsOk (r : MintsResponse)
  | nextOk (r : NextTokenResponse)
  deriving DecidableEq

/-- Handler of `POST /api/nft2/track-mint`, in source order: presence
check (`!address || tokenId === undefined || tokenId === null ||
!txHash`, where the empty string is falsy), numeric conversion of
`tokenId` with a `NaN` check, the address regex, then `addNFT2Mint`.
There is no check that the token id lies in `[0, maxSupply)`. -/
def trackMintHandler (db : Ledger) (body : TrackMintBody)
    (now : String) : ApiResponse × Ledger :=
  match body.address, body.tokenId, body.txHash with
  | some address, some tokenId, some txHash =>
    if address = "" ∨ txHash = "" then
      (.badRequest "Missing required fields: address, tokenId, txHash", db)
    else
      match (match tokenId with
             | .str s => (jsParseInt s).map fun n => (n : Rat)
             | .num n => some n) with
      | none => (.badRequest "tokenId must be a valid number", db)
      | some tokenIdNum =>
        if matchesAddressRegex address then
          let r := addNFT2Mint db address tokenIdNum txHash now
          (.trackOk r.1, r.2)
        else
          (.badRequest "Invalid Ethereum address format", db)
  | _, _, _ =>
    (.badRequest "Missing required fields: address, tokenId, txHash", db)

/-- Handler of `GET /api/nft2/mints/:address` (after the middleware):
`nextTokenId` is `0` when the recipient has no mints, otherwise
`Math.max(...mints.map(m => m.tokenId)) + 1`. -/
def mintsHandler (db : Ledger) (address : String) :
    ApiResponse × Ledger :=
  let mints := getNFT2Mints db address
  let nextTokenId : Rat :=
    match mints with
    | [] => 0
    | m :: rest => (rest.foldl (fun acc x => max acc x.tokenId) m.tokenId) + 1
  (.mintsOk
    { address := jsToLower address, mintsCount := mints.length,
      nextTokenId := nextTokenId, mints := mints }, db)

/-- Handler of `GET /api/nft2/next-token/:address` (after the
middleware). The source duplicates the mints-route computation
verbatim: `0` when the recipient has no mints, otherwise the
recipient's maximum recorded token id plus one. No call to the chain
is made anywhere in this handler, and the response carries neither a
`source` field nor any on-chain count. -/
def nextTokenHandler (db : Ledger) (address : String) :
    ApiResponse × Ledger :=
  let mints := getNFT2Mints db address
  let nextTokenId : Rat :=
    match mints with
    | [] => 0
    | m :: rest => (rest.foldl (fun acc x => max acc x.tokenId) m.tokenId) + 1
  (.nextOk
    { address := jsToLower address, nextTokenId := nextTokenId,
      totalMinted := mints.length, maxSupply := 100 }, db)

/-- A request to one of the three NFT2 routes. -/
inductive Request where
  | trackMint (body : TrackMintBody)
  | getMints (address : String)
  | nextToken (address : String)
  deriving DecidableEq

/-- Dispatch one request: the two GET routes sit behind the
`validateAddress` middleware (`ethers.isAddress`), the POST route does
its own validation. Returns the response and the ledger afterwards. -/
def handle (req : Request) (db : Ledger) (now : String) :
    ApiResponse × Ledger :=
  match req with
  | .trackMint body => trackMintHandler db body now
  | .getMints address =>
    if ethersIsAddress address then mintsHandler db address
    else (.invalidAddress, db)
  | .nextToken address =>
    if ethersIsAddress address then nextTokenHandler db address
    else (.invalidAddress, db)

/-- Ledger states reachable from the empty ledger (fresh server, no
mints file) by any sequence of requests. -/
inductive Reachable : Ledger → Prop
  | init : Reachable []
  | step (req : Request) (now : String) {db : Ledger} :
      Reachable db → Reachable (handle req db now).2

/-- Number of ledger records (across all recipients) carrying the
given token id. -/
def countTokenId (db : Ledger) (t : Rat) : Nat :=
  ((allRecords db).filter fun m => m.tokenId = t).length

/-- The token ids recorded in the ledger, across all recipients. -/
def ledgerTokenIds (db : Ledger) : List Rat :=
  (allRecords db).map NFT2Mint.tokenId

/-- Verification-side name for the per-recipient block both GET routes
duplicate verbatim: `0` when the recipient has no mints, otherwise
`Math.max(...mints.map(m => m.tokenId)) + 1`. -/
def recipientNextId : List NFT2Mint → Rat
  | [] => 0
  | m :: rest => (rest.foldl (fun acc x => max acc x.tokenId) m.tokenId) + 1

/-- Fixture: a well-formed all-lowercase address. -/
def exAddrA : String := "0xaaaaaaaaaaaaaaaaaaaaaaaaaaaaaaaaaaaaaaaa"

/-- Fixture: a second well-formed all-lowercase address. -/
def exAddrB : String := "0xbbbbbbbbbbbbbbbbbbbbbbbbbbbbbbbbbbbbbbbb"

/-- Fixture: the first address with one capital letter (same account,
different capitalization). -/
def exAddrAMixed : String := "0xAaaaaaaaaaaaaaaaaaaaaaaaaaaaaaaaaaaaaaaa"

/-- Fixture: a track-mint request body with all three fields present
and a numeric token id. -/
def exBody (a : String) (t : Rat) (tx : String) : TrackMintBody :=
  { address := some a, tokenId := some (.num t), txHash := some tx }

/-- Fixture: ledger after tracking token 0 and 1 for the first address
and token 2 for the second — three records in total, two of them for
the first address. -/
def exDb3 : Ledger :=
  (handle (.trackMint (exBody exAddrB 2 "0xtx3"))
    (handle (.trackMint (exBody exAddrA 1 "0xtx2"))
      (handle (.trackMint (exBody exAddrA 0 "0xtx1")) [] "t1").2 "t2").2 "t3").2

/-- Fixture: ledger after tracking tokens 0, 1, 2 for the first
address — three records, all for that address. -/
def exDbSeq3 : Ledger :=
  (handle (.trackMint (exBody exAddrA 2 "0xtx3"))
    (handle (.trackMint (exBody exAddrA 1 "0xtx2"))
      (handle (.trackMint (exBody exAddrA 0 "0xtx1")) [] "t1").2 "t2").2 "t3").2

/-- Fixture: ledger after tracking the out-of-range token 150 for the
first address (the route accepts it). -/
def exDbBig : Ledger :=
  (handle (.trackMint (exBody exAddrA 150 "0xtx1")) [] "t1").2

/-- Fixture: ledger after tracking token 0 for the first address twice
(two requests with the same token id). -/
def exDbDup : Ledger :=
  (handle (.trackMint (exBody exAddrA 0 "0xtx1"))
    (handle (.trackMint (exBody exAddrA 0 "0xtx1")) [] "t1").2 "t2").2

/-- Fixture: ledger after tracking the fractional token ids 1/4 and
1/2 for the second address — the route's `isNaN`-only gate accepts
fractional JSON numbers and records them. -/
def exDbFrac : Ledger :=
  (handle (.trackMint (exBody exAddrB (1/2) "0xtx2"))
    (handle (.trackMint (exBody exAddrB (1/4) "0xtx1")) [] "t1").2 "t2").2

theorem char_toNat_ofNat_valid (n : Nat) (hv : n.isValidChar) :
    (Char.ofNat n).toNat = n := by
  simp only [Char.ofNat, hv, dif_pos, Char.ofNatAux, Char.toNat,
    UInt32.toNat, BitVec.ofNatLt]
  rfl

theorem char_toLower_idem (c : Char) :
    Char.toLower (Char.toLower c) = Char.toLower c := by
  show (let n := (Char.toLower c).toNat;
        if n ≥ 65 ∧ n ≤ 90 then Char.ofNat (n + 32) else Char.toLower c)
      = Char.toLower c
  by_cases h : c.toNat ≥ 65 ∧ c.toNat ≤ 90
  · have h1 : Char.toLower c = Char.ofNat (c.toNat + 32) := by
      show (let n := c.toNat;
            if n ≥ 65 ∧ n ≤ 90 then Char.ofNat (n + 32) else c) = _
      simp [h]
    have hv : (c.toNat + 32).isValidChar := Or.inl (by omega)
    have h2 : (Char.toLower c).toNat = c.toNat + 32 := by
      rw [h1, char_toNat_ofNat_valid _ hv]
    simp only [h2]
    rw [if_neg (by omega)]
  · have h1 : Char.toLower c = c := by
      show (let n := c.toNat;
            if n ≥ 65 ∧ n ≤ 90 then Char.ofNat (n + 32) else c) = _
      simp [h]
    simp only [h1]
    rw [if_neg h]

theorem jsToLower_idem (s : String) :
    jsToLower (jsToLower s) = jsToLower s := by
  unfold jsToLower
  have hfun : Char.toLower ∘ Char.toLower = Char.toLower :=
    funext char_toLower_idem
  simp [List.map_map, hfun]

theorem getNFT2Mints_jsToLower (db : Ledger) (a : String) :
    getNFT2Mints db (jsToLower a) = getNFT2Mints db a := by
  unfold getNFT2Mints
  rw [jsToLower_idem]

theorem lookup_pushRecord (db : Ledger) (k kq : String) (m : NFT2Mint) :
    (pushRecord db k m).lookup kq =
      if kq = k then some ((db.lookup k).getD [] ++ [m])
      else db.lookup kq := by
  induction db with
  | nil =>
    by_cases h : kq = k
    · simp [pushRecord, List.lookup_cons, h]
    · have hb : (kq == k) = false := beq_eq_false_iff_ne.mpr h
      simp [pushRecord, List.lookup_cons, h, hb]
  | cons e es ih =>
    obtain ⟨ek, ev⟩ := e
    by_cases he : ek = k
    · subst he
      by_cases hq : kq = ek
      · subst hq
        simp [pushRecord, List.lookup_cons]
      · have hb : (kq == ek) = false := beq_eq_false_iff_ne.mpr hq
        simp [pushRecord, List.lookup_cons, hq, hb]
    · by_cases hq : kq = ek
      · subst hq
        have hqk : ¬ kq = k := he
        simp [pushRecord, List.lookup_cons, if_neg he, hqk]
      · have hke : ¬ k = ek := fun hh => he hh.symm
        have hb : (kq == ek) = false := beq_eq_false_iff_ne.mpr hq
        have hbk : (k == ek) = false := beq_eq_false_iff_ne.mpr hke
        simp [pushRecord, List.lookup_cons, if_neg he, hq, hb, hbk, ih]

theorem getNFT2Mints_add_same (db : Ledger) (a b : String) (t : Rat)
    (tx now : String) (hab : jsToLower b = jsToLower a) :
    getNFT2Mints (addNFT2Mint db a t tx now).2 b
      = getNFT2Mints db b ++ [(addNFT2Mint db a t tx now).1] := by
  unfold addNFT2Mint getNFT2Mints
  simp only [lookup_pushRecord, hab, if_pos rfl]
  simp [hab]

theorem getNFT2Mints_add_other (db : Ledger) (a b : String) (t : Rat)
    (tx now : String) (hab : jsToLower b ≠ jsToLower a) :
    getNFT2Mints (addNFT2Mint db a t tx now).2 b = getNFT2Mints db b := by
  unfold addNFT2Mint getNFT2Mints
  simp [lookup_pushRecord, hab]

theorem allRecords_cons (e : String × List NFT2Mint) (es : Ledger) :
    allRecords (e :: es) = e.2 ++ allRecords es := by
  simp [allRecords]

theorem allRecords_pushRecord (db : Ledger) (k : String) (m : NFT2Mint) :
    (allRecords (pushRecord db k m)).Perm (m :: allRecords db) := by
  induction db with
  | nil =>
    have h1 : allRecords (pushRecord [] k m) = [m] := by
      simp [pushRecord, allRecords]
    have h2 : allRecords ([] : Ledger) = [] := by simp [allRecords]
    rw [h1, h2]
  | cons e es ih =>
    simp only [pushRecord]
    by_cases he : e.1 = k
    · rw [if_pos he, allRecords_cons, allRecords_cons]
      have h1 : (e.2 ++ [m]) ++ allRecords es = e.2 ++ m :: allRecords es := by
        rw [List.append_assoc]
        rfl
      rw [h1]
      exact List.perm_middle
    · rw [if_neg he, allRecords_cons, allRecords_cons]
      exact (ih.append_left e.2).trans List.perm_middle

theorem countTokenId_addNFT2Mint (db : Ledger) (a : String) (t : Rat)
    (tx now : String) (tq : Rat) :
    countTokenId (addNFT2Mint db a t tx now).2 tq =
      countTokenId db tq + (if t = tq then 1 else 0) := by
  unfold countTokenId addNFT2Mint
  simp only []
  rw [← List.countP_eq_length_filter, ← List.countP_eq_length_filter]
  rw [(allRecords_pushRecord db (jsToLower a) _).countP_eq]
  simp only [List.countP_cons]
  by_cases h : t = tq
  · simp [h]
  · simp [h]

theorem le_foldl_max (l : List Rat) (init : Rat) : init ≤ l.foldl max init := by
  induction l generalizing init with
  | nil => exact le_refl init
  | cons x xs ih => exact le_trans (le_max_left init x) (ih (max init x))

theorem mem_le_foldl_max :
    ∀ (l : List Rat) (init x : Rat), x ∈ l → x ≤ l.foldl max init
  | y :: ys, init, x, hx => by
    cases hx with
    | head => exact le_trans (le_max_right init y) (le_foldl_max ys (max init y))
    | tail _ h => exact mem_le_foldl_max ys (max init y) x h

theorem foldl_max_init_or_mem :
    ∀ (l : List Rat) (init : Rat), l.foldl max init = init ∨ l.foldl max init ∈ l
  | [], _ => Or.inl rfl
  | y :: ys, init => by
    rw [List.foldl_cons]
    rcases foldl_max_init_or_mem ys (max init y) with h | h
    · rw [h]
      rcases max_choice init y with h2 | h2
      · exact Or.inl h2
      · rw [h2]
        exact Or.inr (List.mem_cons_self y ys)
    · exact Or.inr (List.mem_cons_of_mem y h)

theorem lt_recipientNextId (mints : List NFT2Mint) (x : NFT2Mint)
    (hx : x ∈ mints) : x.tokenId < recipientNextId mints := by
  cases mints with
  | nil => cases hx
  | cons m rest =>
    show x.tokenId < (rest.foldl (fun acc y => max acc y.tokenId) m.tokenId) + 1
    rw [← List.foldl_map]
    cases hx with
    | head =>
      have h := le_foldl_max (rest.map NFT2Mint.tokenId) x.tokenId
      linarith
    | tail _ h =>
      have h2 := mem_le_foldl_max (rest.map NFT2Mint.tokenId) m.tokenId
        x.tokenId (List.mem_map_of_mem NFT2Mint.tokenId h)
      linarith

theorem recipientNextId_eq_max_add_one (mints : List NFT2Mint)
    (hne : mints ≠ []) :
    ∃ x ∈ mints, recipientNextId mints = x.tokenId + 1 ∧
      ∀ y ∈ mints, y.tokenId ≤ x.tokenId := by
  cases mints with
  | nil => exact absurd rfl hne
  | cons m rest =>
    have hshow : recipientNextId (m :: rest)
        = (rest.map NFT2Mint.tokenId).foldl max m.tokenId + 1 := by
      show (rest.foldl (fun acc y => max acc y.tokenId) m.tokenId) + 1 = _
      rw [← List.foldl_map]
    rcases foldl_max_init_or_mem (rest.map NFT2Mint.tokenId) m.tokenId with h | h
    · refine ⟨m, List.mem_cons_self m rest, by rw [hshow, h], ?_⟩
      intro y hy
      cases hy with
      | head => exact le_refl _
      | tail _ hy2 =>
        have h2 := mem_le_foldl_max (rest.map NFT2Mint.tokenId) m.tokenId
          y.tokenId (List.mem_map_of_mem NFT2Mint.tokenId hy2)
        linarith
    · obtain ⟨x, hx, hxe⟩ := List.mem_map.mp h
      refine ⟨x, List.mem_cons_of_mem m hx, by rw [hshow, hxe], ?_⟩
      intro y hy
      cases hy with
      | head =>
        have h2 := le_foldl_max (rest.map NFT2Mint.tokenId) m.tokenId
        linarith
      | tail _ hy2 =>
        have h2 := mem_le_foldl_max (rest.map NFT2Mint.tokenId) m.tokenId
          y.tokenId (List.mem_map_of_mem NFT2Mint.tokenId hy2)
        linarith

theorem mintsHandler_eq (db : Ledger) (a : String) :
    mintsHandler db a =
      (.mintsOk { address := jsToLower a,
                  mintsCount := (getNFT2Mints db a).length,
                  nextTokenId := recipientNextId (getNFT2Mints db a),
                  mints := getNFT2Mints db a }, db) := by
  unfold mintsHandler recipientNextId
  cases getNFT2Mints db a with
  | nil => rfl
  | cons m rest => rfl

theorem nextTokenHandler_eq (db : Ledger) (a : String) :
    nextTokenHandler db a =
      (.nextOk { address := jsToLower a,
                 nextTokenId := recipientNextId (getNFT2Mints db a),
                 totalMinted := (getNFT2Mints db a).length,
                 maxSupply := 100 }, db) := by
  unfold nextTokenHandler recipientNextId
  cases getNFT2Mints db a with
  | nil => rfl
  | cons m rest => rfl

theorem nodup_bounded_length (l : List Int) (M : Int) (hnd : l.Nodup)
    (h0 : ∀ x ∈ l, 0 ≤ x) (hM : ∀ x ∈ l, x ≤ M) (hM0 : 0 ≤ M) :
    (l.length : Int) ≤ M + 1 := by
  have hmap : (l.map Int.toNat).Nodup := by
    refine hnd.map_on ?_
    intro x hx y hy hxy
    have hx0 := h0 x hx
    have hy0 := h0 y hy
    omega
  have hsub : (l.map Int.toNat).toFinset ⊆ Finset.range (M.toNat + 1) := by
    intro n hn
    rw [List.mem_toFinset] at hn
    rw [Finset.mem_range]
    obtain ⟨x, hx, hxe⟩ := List.mem_map.mp hn
    have h1 := hM x hx
    have h2 := h0 x hx
    omega
  have hcard : (l.map Int.toNat).toFinset.card = (l.map Int.toNat).length :=
    List.toFinset_card_of_nodup hmap
  have hle := Finset.card_le_card hsub
  rw [hcard, Finset.card_range, List.length_map] at hle
  omega

theorem rat_nodup_bounded_length (l : List Rat) (M : Rat) (hnd : l.Nodup)
    (hden : ∀ x ∈ l, x.den = 1) (h0 : ∀ x ∈ l, 0 ≤ x)
    (hM : ∀ x ∈ l, x ≤ M) (hM0 : 0 ≤ M) (hMden : M.den = 1) :
    (l.length : Rat) ≤ M + 1 := by
  have hcast : ∀ x ∈ l, (x.num : Rat) = x := fun x hx =>
    (Rat.den_eq_one_iff x).mp (hden x hx)
  have hMcast : (M.num : Rat) = M := (Rat.den_eq_one_iff M).mp hMden
  have hmap : (l.map Rat.num).Nodup := by
    refine hnd.map_on ?_
    intro x hx y hy hxy
    have h1 := hcast x hx
    have h2 := hcast y hy
    rw [← h1, ← h2, hxy]
  have h0m : ∀ n ∈ l.map Rat.num, 0 ≤ n := by
    intro n hn
    obtain ⟨x, hx, hxe⟩ := List.mem_map.mp hn
    rw [← hxe]
    exact Rat.num_nonneg.mpr (h0 x hx)
  have hMm : ∀ n ∈ l.map Rat.num, n ≤ M.num := by
    intro n hn
    obtain ⟨x, hx, hxe⟩ := List.mem_map.mp hn
    rw [← hxe]
    have hle := hM x hx
    rw [← hcast x hx, ← hMcast] at hle
    exact_mod_cast hle
  have hM0n : (0 : Int) ≤ M.num := Rat.num_nonneg.mpr hM0
  have hint := nodup_bounded_length (l.map Rat.num) M.num hmap h0m hMm hM0n
  rw [List.length_map] at hint
  have hfin : ((l.length : Int) : Rat) ≤ ((M.num + 1 : Int) : Rat) := by
    exact_mod_cast hint
  rw [← hMcast]
  push_cast at hfin ⊢
  linarith

theorem matchesAddressRegex_ne_empty (a : String)
    (ha : matchesAddressRegex a = true) : a ≠ "" := by
  intro h
  rw [h] at ha
  exact absurd ha (by decide)

theorem trackMintHandler_valid (db : Ledger) (a : String) (t : Rat)
    (tx now : String) (ha : matchesAddressRegex a = true) (htx : tx ≠ "") :
    trackMintHandler db (exBody a t tx) now
      = (.trackOk (addNFT2Mint db a t tx now).1,
         (addNFT2Mint db a t tx now).2) := by
  have ha2 : a ≠ "" := matchesAddressRegex_ne_empty a ha
  unfold trackMintHandler exBody
  simp [ha, ha2, htx]

section

attribute [local semireducible] Rat.add Rat.mul Rat.inv

/-- C1 counterexample: with the ledger holding 3 records in total (two
for the queried recipient, with token ids 0 and 1, and one for another
recipient), `GET /api/nft2/next-token` returns `nextTokenId = 2`, not
the total record count 3 — the endpoint counts per recipient and uses
max + 1, and its response (as the `NextTokenResponse` fields show)
carries no `source` field. -/
theorem claim_C1_counterexample :
    (allRecords exDb3).length = 3 ∧
    (handle (.nextToken exAddrA) exDb3 "t").1
      = .nextOk { address := exAddrA, nextTokenId := 2,
                  totalMinted := 2, maxSupply := 100 } ∧
    ¬ ((2 : Rat) = 3) := by
  refine ⟨by decide, by decide, by decide⟩

/-- C1 as amended: the chain is never consulted; for every ledger
state, `GET /api/nft2/next-token` answers from the ledger alone, per
recipient: `totalMinted` is the queried recipient's record count, and
`nextTokenId` is 0 when that recipient has no records, otherwise one
plus the maximum token id among that recipient's records; the response
carries no `source` field. -/
theorem claim_C1_amended (db : Ledger) (a now : String)
    (ha : ethersIsAddress a = true) :
    ∃ r : NextTokenResponse,
      handle (.nextToken a) db now = (.nextOk r, db) ∧
      r.totalMinted = (getNFT2Mints db a).length ∧
      (getNFT2Mints db a = [] → r.nextTokenId = 0) ∧
      (getNFT2Mints db a ≠ [] →
        ∃ x ∈ getNFT2Mints db a, r.nextTokenId = x.tokenId + 1 ∧
          ∀ y ∈ getNFT2Mints db a, y.tokenId ≤ x.tokenId) := by
  have hh : handle (.nextToken a) db now = nextTokenHandler db a := by
    simp [handle, ha]
  rw [hh, nextTokenHandler_eq]
  refine ⟨_, rfl, rfl, ?_, ?_⟩
  · intro hnil
    rw [hnil]
    rfl
  · exact fun hne => recipientNextId_eq_max_add_one _ hne

/-- Witness for the amended C1 at a concrete reachable ledger. -/
theorem claim_C1_amended_witness :
    ∃ r : NextTokenResponse,
      handle (.nextToken exAddrA) exDb3 "t" = (.nextOk r, exDb3) ∧
      r.totalMinted = (getNFT2Mints exDb3 exAddrA).length ∧
      (getNFT2Mints exDb3 exAddrA = [] → r.nextTokenId = 0) ∧
      (getNFT2Mints exDb3 exAddrA ≠ [] →
        ∃ x ∈ getNFT2Mints exDb3 exAddrA, r.nextTokenId = x.tokenId + 1 ∧
          ∀ y ∈ getNFT2Mints exDb3 exAddrA, y.tokenId ≤ x.tokenId) :=
  claim_C1_amended exDb3 exAddrA "t" (by decide)

/-- C2: the code evaluated at the failing input. With the ledger
holding exactly the records 0, 1, 2 for the recipient and the chain
(which the route never queries, although the README documents it as
doing so) reporting 5 minted tokens, the endpoint returns
`nextTokenId = 3` — computed from the local ledger only — instead of
the claimed 5, and its response has no `source` field. -/
theorem claim_C2_code_eval :
    (handle (.nextToken exAddrA) exDbSeq3 "t").1
      = .nextOk { address := exAddrA, nextTokenId := 3,
                  totalMinted := 3, maxSupply := 100 } ∧
    ¬ ((3 : Rat) = 5) := by
  refine ⟨by decide, by decide⟩

/-- C3 counterexample: the claimed bounds fail on reachable states in
both directions. Tracking token id 150 is accepted (the route has no
range check) and the next-token endpoint then returns 151 — strictly
greater than `maxSupply = 100`, with no clamping. And tracking the
fractional token ids 1/4 and 1/2 — accepted by the `isNaN`-only gate —
yields a recipient with two distinct, non-negative recorded ids for
which the endpoint returns 3/2, strictly below that recipient's record
count 2, so the claimed lower bound fails as well once fractional ids
are recorded. -/
theorem claim_C3_counterexample :
    (Reachable exDbBig ∧
      (handle (.nextToken exAddrA) exDbBig "t").1
        = .nextOk { address := exAddrA, nextTokenId := 151,
                    totalMinted := 1, maxSupply := 100 } ∧
      ¬ ((151 : Rat) ≤ 100)) ∧
    (Reachable exDbFrac ∧
      (handle (.nextToken exAddrB) exDbFrac "t").1
        = .nextOk { address := exAddrB, nextTokenId := 3/2,
                    totalMinted := 2, maxSupply := 100 } ∧
      ((getNFT2Mints exDbFrac exAddrB).map NFT2Mint.tokenId).Nodup ∧
      (∀ x ∈ getNFT2Mints exDbFrac exAddrB, 0 ≤ x.tokenId) ∧
      ¬ (((getNFT2Mints exDbFrac exAddrB).length : Rat) ≤ 3/2)) := by
  refine ⟨⟨?_, by decide, by decide⟩,
          ⟨?_, by decide, by decide, by decide, by decide⟩⟩
  · exact Reachable.step (.trackMint (exBody exAddrA 150 "0xtx1")) "t1"
      Reachable.init
  · exact Reachable.step (.trackMint (exBody exAddrB (1/2) "0xtx2")) "t2"
      (Reachable.step (.trackMint (exBody exAddrB (1/4) "0xtx1")) "t1"
        Reachable.init)

/-- C3 as amended: the returned `nextTokenId` is not clamped to
`maxSupply` and can exceed it, and fractional recorded ids can push it
below the recipient's record count (see the counterexample); what does
hold is the lower bound, per recipient: whenever the queried
recipient's recorded token ids are pairwise distinct, non-negative
integers (denominator 1), `nextTokenId` is at least that recipient's
record count. -/
theorem claim_C3_amended (db : Ledger) (a now : String)
    (ha : ethersIsAddress a = true)
    (hnd : ((getNFT2Mints db a).map NFT2Mint.tokenId).Nodup)
    (hden : ∀ x ∈ getNFT2Mints db a, x.tokenId.den = 1)
    (h0 : ∀ x ∈ getNFT2Mints db a, 0 ≤ x.tokenId) :
    ∃ r : NextTokenResponse,
      handle (.nextToken a) db now = (.nextOk r, db) ∧
      ((getNFT2Mints db a).length : Rat) ≤ r.nextTokenId := by
  have hh : handle (.nextToken a) db now = nextTokenHandler db a := by
    simp [handle, ha]
  rw [hh, nextTokenHandler_eq]
  refine ⟨_, rfl, ?_⟩
  by_cases hne : getNFT2Mints db a = []
  · rw [hne]
    simp [recipientNextId]
  · obtain ⟨x, hx, hxe, hmax⟩ := recipientNextId_eq_max_add_one _ hne
    have hdenm : ∀ n ∈ (getNFT2Mints db a).map NFT2Mint.tokenId,
        n.den = 1 := by
      intro n hn
      obtain ⟨y, hy, hye⟩ := List.mem_map.mp hn
      rw [← hye]
      exact hden y hy
    have h0m : ∀ n ∈ (getNFT2Mints db a).map NFT2Mint.tokenId, 0 ≤ n := by
      intro n hn
      obtain ⟨y, hy, hye⟩ := List.mem_map.mp hn
      rw [← hye]
      exact h0 y hy
    have hMm : ∀ n ∈ (getNFT2Mints db a).map NFT2Mint.tokenId,
        n ≤ x.tokenId := by
      intro n hn
      obtain ⟨y, hy, hye⟩ := List.mem_map.mp hn
      rw [← hye]
      exact hmax y hy
    have hlen := rat_nodup_bounded_length _ x.tokenId hnd hdenm h0m hMm
      (h0 x hx) (hden x hx)
    rw [List.length_map] at hlen
    rw [hxe]
    exact hlen

/-- Witness for the amended C3 at a concrete reachable ledger. -/
theorem claim_C3_amended_witness :
    ∃ r : NextTokenResponse,
      handle (.nextToken exAddrA) exDb3 "t2" = (.nextOk r, exDb3) ∧
      ((getNFT2Mints exDb3 exAddrA).length : Rat) ≤ r.nextTokenId :=
  claim_C3_amended exDb3 exAddrA "t2" (by decide) (by decide) (by decide)
    (by decide)

/-- C4 counterexample: a track-mint request with the out-of-range
token id −1 (well-formed address, non-empty transaction hash) does not
fail with HTTP 400 — it succeeds and appends a record with tokenId −1
to the previously empty ledger. -/
theorem claim_C4_counterexample :
    (handle (.trackMint (exBody exAddrA (-1) "0xtx1")) [] "t1").1
      = .trackOk { address := exAddrA, tokenId := -1,
                   txHash := "0xtx1", timestamp := "t1" } ∧
    (handle (.trackMint (exBody exAddrA (-1) "0xtx1")) [] "t1").2
      = [(exAddrA, [{ address := exAddrA, tokenId := -1,
                      txHash := "0xtx1", timestamp := "t1" }])] := by
  refine ⟨by decide, by decide⟩

/-- C4 as amended: the track-mint route checks only field presence,
numeric convertibility of the token id and the address shape; it
performs no range check, so for every integer tokenId — including
negative values and values at or above maxSupply — a request with a
well-formed address and non-empty txHash succeeds and appends exactly
one record with that tokenId to the recipient's ledger. -/
theorem claim_C4_amended (db : Ledger) (a : String) (t : Rat)
    (tx now : String) (ha : matchesAddressRegex a = true) (htx : tx ≠ "") :
    ∃ m : NFT2Mint,
      (handle (.trackMint (exBody a t tx)) db now).1 = .trackOk m ∧
      m.tokenId = t ∧
      getNFT2Mints (handle (.trackMint (exBody a t tx)) db now).2 a
        = getNFT2Mints db a ++ [m] := by
  have hh : handle (.trackMint (exBody a t tx)) db now
      = trackMintHandler db (exBody a t tx) now := rfl
  rw [hh, trackMintHandler_valid db a t tx now ha htx]
  exact ⟨_, rfl, rfl, getNFT2Mints_add_same db a a t tx now rfl⟩

/-- Witness for the amended C4: token id 150 (≥ maxSupply) is accepted
and recorded. -/
theorem claim_C4_amended_witness :
    ∃ m : NFT2Mint,
      (handle (.trackMint (exBody exAddrA 150 "0xtx1")) [] "t1").1
        = .trackOk m ∧
      m.tokenId = 150 ∧
      getNFT2Mints (handle (.trackMint (exBody exAddrA 150 "0xtx1")) [] "t1").2
          exAddrA
        = getNFT2Mints [] exAddrA ++ [m] :=
  claim_C4_amended [] exAddrA 150 "0xtx1" "t1" (by decide) (by decide)

/-- C5 counterexample: two accepted track-mint calls with the same
token id 0 produce a reachable ledger in which two records share token
id 0 — the claimed uniqueness invariant does not hold. -/
theorem claim_C5_counterexample :
    Reachable exDbDup ∧ ¬ (ledgerTokenIds exDbDup).Nodup := by
  constructor
  · exact Reachable.step (.trackMint (exBody exAddrA 0 "0xtx1")) "t2"
      (Reachable.step (.trackMint (exBody exAddrA 0 "0xtx1")) "t1"
        Reachable.init)
  · decide

/-- C5 as amended: the ledger does not enforce token-id uniqueness —
there is no deduplication, so each accepted track-mint call appends a
record unconditionally, and two calls with the same token id leave the
ledger with exactly two more records carrying that id. -/
theorem claim_C5_amended (db : Ledger) (a : String) (t : Rat)
    (tx1 tx2 now1 now2 : String) (ha : matchesAddressRegex a = true)
    (h1 : tx1 ≠ "") (h2 : tx2 ≠ "") :
    countTokenId (handle (.trackMint (exBody a t tx2))
        (handle (.trackMint (exBody a t tx1)) db now1).2 now2).2 t
      = countTokenId db t + 2 := by
  have e1 : (handle (.trackMint (exBody a t tx1)) db now1).2
      = (addNFT2Mint db a t tx1 now1).2 := by
    show (trackMintHandler db (exBody a t tx1) now1).2 = _
    rw [trackMintHandler_valid db a t tx1 now1 ha h1]
  rw [e1]
  have e2 : (handle (.trackMint (exBody a t tx2))
        (addNFT2Mint db a t tx1 now1).2 now2).2
      = (addNFT2Mint (addNFT2Mint db a t tx1 now1).2 a t tx2 now2).2 := by
    show (trackMintHandler _ (exBody a t tx2) now2).2 = _
    rw [trackMintHandler_valid _ a t tx2 now2 ha h2]
  rw [e2, countTokenId_addNFT2Mint, countTokenId_addNFT2Mint]
  simp

/-- Witness for the amended C5 at concrete inputs. -/
theorem claim_C5_amended_witness :
    countTokenId (handle (.trackMint (exBody exAddrA 0 "0xtx1"))
        (handle (.trackMint (exBody exAddrA 0 "0xtx1")) [] "t1").2 "t2").2 0
      = countTokenId [] 0 + 2 :=
  claim_C5_amended [] exAddrA 0 "0xtx1" "0xtx1" "t1" "t2"
    (by decide) (by decide) (by decide)

/-- C6: for every valid recipient address and every tokenId in
`[0, maxSupply)` — including the boundary 0 — a successful track-mint
followed by a mints query for that recipient returns a record carrying
exactly that tokenId. -/
theorem claim_C6 (db : Ledger) (a : String) (t : Rat)
    (tx now now2 : String) (hreg : matchesAddressRegex a = true)
    (hval : ethersIsAddress a = true) (h0 : 0 ≤ t) (hlt : t < 100)
    (htx : tx ≠ "") :
    ∃ m : NFT2Mint,
      (handle (.trackMint (exBody a t tx)) db now).1 = .trackOk m ∧
      m.tokenId = t ∧
      ∃ r : MintsResponse,
        (handle (.getMints a)
            (handle (.trackMint (exBody a t tx)) db now).2 now2).1
          = .mintsOk r ∧ m ∈ r.mints := by
  have hh : handle (.trackMint (exBody a t tx)) db now
      = trackMintHandler db (exBody a t tx) now := rfl
  rw [hh, trackMintHandler_valid db a t tx now hreg htx]
  refine ⟨_, rfl, rfl, ?_⟩
  have hg : handle (.getMints a) (addNFT2Mint db a t tx now).2 now2
      = mintsHandler (addNFT2Mint db a t tx now).2 a := by
    simp [handle, hval]
  rw [hg, mintsHandler_eq]
  refine ⟨_, rfl, ?_⟩
  rw [getNFT2Mints_add_same db a a t tx now rfl]
  exact List.mem_append_right _ (List.mem_singleton_self _)

/-- Witness for C6 at the boundary tokenId 0. -/
theorem claim_C6_witness :
    ∃ m : NFT2Mint,
      (handle (.trackMint (exBody exAddrA 0 "0xtx1")) [] "t1").1
        = .trackOk m ∧
      m.tokenId = 0 ∧
      ∃ r : MintsResponse,
        (handle (.getMints exAddrA)
            (handle (.trackMint (exBody exAddrA 0 "0xtx1")) [] "t1").2 "t2").1
          = .mintsOk r ∧ m ∈ r.mints :=
  claim_C6 [] exAddrA 0 "0xtx1" "t1" "t2" (by decide) (by decide)
    (by decide) (by decide) (by decide)

/-- C7: for every syntactically valid recipient address with no
recorded mints, the mints query succeeds with HTTP 200 and an empty
array (never a 404 or an error). -/
theorem claim_C7 (db : Ledger) (a now : String)
    (hval : ethersIsAddress a = true)
    (hempty : getNFT2Mints db a = []) :
    handle (.getMints a) db now =
      (.mintsOk { address := jsToLower a, mintsCount := 0,
                  nextTokenId := 0, mints := [] }, db) := by
  have hg : handle (.getMints a) db now = mintsHandler db a := by
    simp [handle, hval]
  rw [hg, mintsHandler_eq, hempty]
  rfl

/-- Witness for C7: a valid address queried against the empty
ledger. -/
theorem claim_C7_witness :
    handle (.getMints exAddrB) [] "t" =
      (.mintsOk { address := jsToLower exAddrB, mintsCount := 0,
                  nextTokenId := 0, mints := [] }, []) :=
  claim_C7 [] exAddrB "t" (by decide) (by decide)

/-- C8: the next-token route is read-only — for every ledger state it
returns the ledger unchanged (whether the middleware accepts or
rejects the address). -/
theorem claim_C8 (db : Ledger) (a now : String) :
    (handle (.nextToken a) db now).2 = db := by
  by_cases h : ethersIsAddress a = true
  · have hh : handle (.nextToken a) db now = nextTokenHandler db a := by
      simp [handle, h]
    rw [hh, nextTokenHandler_eq]
  · simp [handle, h]

/-- C9: for every ledger state and accepted address, the `nextTokenId`
computed by the mints route equals the one computed by the next-token
route, and both are 0 when the recipient has no mints and otherwise
the recipient's maximum recorded token id plus one. -/
theorem claim_C9 (db : Ledger) (a now : String)
    (ha : ethersIsAddress a = true) :
    ∃ (rm : MintsResponse) (rn : NextTokenResponse),
      (handle (.getMints a) db now).1 = .mintsOk rm ∧
      (handle (.nextToken a) db now).1 = .nextOk rn ∧
      rm.nextTokenId = rn.nextTokenId ∧
      (getNFT2Mints db a = [] → rn.nextTokenId = 0) ∧
      (getNFT2Mints db a ≠ [] →
        ∃ x ∈ getNFT2Mints db a, rn.nextTokenId = x.tokenId + 1 ∧
          ∀ y ∈ getNFT2Mints db a, y.tokenId ≤ x.tokenId) := by
  have h1 : handle (.getMints a) db now = mintsHandler db a := by
    simp [handle, ha]
  have h2 : handle (.nextToken a) db now = nextTokenHandler db a := by
    simp [handle, ha]
  rw [h1, h2, mintsHandler_eq, nextTokenHandler_eq]
  refine ⟨_, _, rfl, rfl, rfl, ?_, ?_⟩
  · intro hnil
    rw [hnil]
    rfl
  · exact fun hne => recipientNextId_eq_max_add_one _ hne

/-- Witness for C9 at a concrete reachable ledger. -/
theorem claim_C9_witness :
    ∃ (rm : MintsResponse) (rn : NextTokenResponse),
      (handle (.getMints exAddrA) exDb3 "t").1 = .mintsOk rm ∧
      (handle (.nextToken exAddrA) exDb3 "t").1 = .nextOk rn ∧
      rm.nextTokenId = rn.nextTokenId ∧
      (getNFT2Mints exDb3 exAddrA = [] → rn.nextTokenId = 0) ∧
      (getNFT2Mints exDb3 exAddrA ≠ [] →
        ∃ x ∈ getNFT2Mints exDb3 exAddrA, rn.nextTokenId = x.tokenId + 1 ∧
          ∀ y ∈ getNFT2Mints exDb3 exAddrA, y.tokenId ≤ x.tokenId) :=
  claim_C9 exDb3 exAddrA "t" (by decide)

/-- C10: mint tracking is case-insensitive in the recipient address —
records are stored and queried under the lowercased address, so a
query under any capitalization sees the same records, and a record
added under one capitalization of an address is returned by a query
under any other capitalization of the same address. -/
theorem claim_C10 (db : Ledger) (a1 a2 : String) (t : Rat)
    (tx now : String) (hsame : jsToLower a1 = jsToLower a2) :
    getNFT2Mints db a1 = getNFT2Mints db (jsToLower a1) ∧
    getNFT2Mints db a1 = getNFT2Mints db a2 ∧
    getNFT2Mints (addNFT2Mint db a1 t tx now).2 a2
      = getNFT2Mints db a2 ++ [(addNFT2Mint db a1 t tx now).1] := by
  refine ⟨(getNFT2Mints_jsToLower db a1).symm, ?_, ?_⟩
  · unfold getNFT2Mints
    rw [hsame]
  · exact getNFT2Mints_add_same db a1 a2 t tx now hsame.symm

/-- Witness for C10: a mixed-case and the all-lowercase spelling of
the same address. -/
theorem claim_C10_witness :
    getNFT2Mints [] exAddrAMixed = getNFT2Mints [] (jsToLower exAddrAMixed) ∧
    getNFT2Mints [] exAddrAMixed = getNFT2Mints [] exAddrA ∧
    getNFT2Mints (addNFT2Mint [] exAddrAMixed 0 "0xtx1" "t1").2 exAddrA
      = getNFT2Mints [] exAddrA ++ [(addNFT2Mint [] exAddrAMixed 0 "0xtx1" "t1").1] :=
  claim_C10 [] exAddrAMixed exAddrA 0 "0xtx1" "t1" (by decide)

end

end NFT2
